import Mathlib

/-!
Shallow embedding of `pkg/chunked/filesystem_linux.go` (containers/storage,
chunked layer materialization).  Syscall-level functions are modelled with
explicit environments supplying each syscall's outcome and with effect
traces recording which syscalls were issued; pure helpers are translated
directly.
-/

set_option maxRecDepth 2000

namespace Chunked

/-- Errno values that the Go code distinguishes. -/
inductive Errno where
  | ENOENT | EEXIST | ENOSYS | ENOTSUP | EINVAL | ELOOP | EPERM | EACCES | EOTHER
  deriving DecidableEq, Repr

/-- Go `error` values produced by this file: raw errnos, the escape error built
by `openFileUnderRootFallback`, the fixed error strings, and `fmt.Errorf`
wrappings with `%w`. -/
inductive GoError where
  | errno (e : Errno)
  | escape (name : String)
  | invalidFile
  | unknownType (t : String)
  | decodeErr (v : String)
  | chownErr (e : Errno)
  | xattrErr (k : String) (e : Errno)
  | utimesErr (e : Errno)
  | chmodErr (e : Errno)
  | wrapped (ctx : String) (e : GoError)
  deriving DecidableEq, Repr

/-- Model of `errors.Is(err, unix.X)`: unwraps `fmt.Errorf` `%w` chains down to an errno. -/
def GoError.isErrno : GoError → Errno → Bool
  | .errno e, t => e = t
  | .wrapped _ e, t => e.isErrno t
  | _, _ => false

/-- Model of `os.IsExist(err)` for the errors produced here. -/
def isExist (e : GoError) : Bool := e.isErrno .EEXIST

/-- Model of `procPathForFd`: the `/proc/self/fd/N` synthetic path for a descriptor. -/
def procPathForFd (fd : Nat) : String := "/proc/self/fd/" ++ toString fd

/-! ### Go `path/filepath` helpers used by the source -/

/-- One step of `filepath.Clean`'s lexical component processing. -/
def cleanStep (rooted : Bool) (acc : List String) (comp : String) : List String :=
  if comp = "" ∨ comp = "." then acc
  else if comp = ".." then
    match acc with
    | [] => if rooted then [] else [".."]
    | t :: rest => if t = ".." then ".." :: t :: rest else rest
  else comp :: acc

/-- Model of `filepath.Clean`: lexical path cleaning (no filesystem access). -/
def clean (path : String) : String :=
  if path = "" then "."
  else
    let rooted := path.startsWith "/"
    let comps := (path.splitOn "/").foldl (cleanStep rooted) []
    let out := String.intercalate "/" comps.reverse
    if rooted then "/" ++ out
    else if out = "" then "." else out

/-- Model of `filepath.Split`: splits after the final slash; the directory part keeps
its trailing slash. -/
def goSplit (path : String) : String × String :=
  let cs := path.toList
  let base := (cs.reverse.takeWhile (fun c => c ≠ '/')).reverse
  (String.mk (cs.take (cs.length - base.length)), String.mk base)

/-- Model of `filepath.Dir`: everything up to the final slash, cleaned. -/
def goDir (path : String) : String := clean (goSplit path).1

/-- Model of `filepath.Base`: the last element of the path, after stripping trailing
slashes; `"."` for the empty path, `"/"` for an all-slash path. -/
def goBase (path : String) : String :=
  if path = "" then "."
  else
    let cs := (path.toList.reverse.dropWhile (fun c => c = '/')).reverse
    if cs = [] then "/"
    else String.mk ((cs.reverse.takeWhile (fun c => c ≠ '/')).reverse)

/-! ### Go `encoding/base64` standard decoding -/

/-- Value of one base64 alphabet character (`A-Za-z0-9+/`). -/
def b64Val (c : Char) : Option Nat :=
  if 'A' ≤ c ∧ c ≤ 'Z' then some (c.toNat - 65)
  else if 'a' ≤ c ∧ c ≤ 'z' then some (c.toNat - 97 + 26)
  else if '0' ≤ c ∧ c ≤ '9' then some (c.toNat - 48 + 52)
  else if c = '+' then some 62
  else if c = '/' then some 63
  else none

/-- Model of `base64.StdEncoding.DecodeString` on a character list: four-character
quantums, padding only in the final quantum, `none` on malformed input. -/
def base64DecodeList : List Char → Option (List Nat)
  | [] => some []
  | a :: b :: c :: d :: rest =>
    match b64Val a, b64Val b with
    | some va, some vb =>
      if c = '=' then
        if d = '=' ∧ rest = [] then some [va * 4 + vb / 16] else none
      else
        match b64Val c with
        | some vc =>
          if d = '=' then
            if rest = [] then some [va * 4 + vb / 16, (vb % 16) * 16 + vc / 4]
            else none
          else
            match b64Val d with
            | some vd =>
              (base64DecodeList rest).map
                (fun r => (va * 4 + vb / 16) :: ((vb % 16) * 16 + vc / 4) :: ((vc % 4) * 64 + vd) :: r)
            | none => none
        | none => none
    | _, _ => none
  | _ => none

/-- Model of `base64.StdEncoding.DecodeString`. -/
def base64Decode (s : String) : Option (List Nat) := base64DecodeList s.toList

/-! ### `fileMetadata` and `setFileAttrs` -/

/-- Model of `fileMetadata`: the `internal.FileMetadata` fields the code reads, plus the
private `skipSetAttrs` flag.  `Xattrs` is a finite map rendered as an
association list in some iteration order; timestamps are nanoseconds, with
`none` standing for a nil or zero `time.Time`. -/
structure FileMetadata where
  type : String
  name : String
  linkname : String
  uid : Int
  gid : Int
  accessTime : Option Int
  modTime : Option Int
  xattrs : List (String × String)
  skipSetAttrs : Bool
  deriving DecidableEq, Repr

/-- Model of `timeToTimespec`: a nil or zero time becomes the `UTIME_OMIT` sentinel
`(0, 2^30 - 2)`; otherwise seconds and remaining nanoseconds. -/
def timeToTimespec : Option Int → Int × Int
  | none => (0, (1 <<< 30) - 2)
  | some ns => (ns / 1000000000, ns % 1000000000)

/-- Modelled from the spec: the fixed, built-in set of extended-attribute
names never restored ("internal bookkeeping keys"); the map itself
(`xattrsToIgnore`) is declared in a sibling file of this package that is not
under `src/`. -/
def xattrsToIgnore : List String := ["security.selinux"]

/-- Modelled from the spec: `typeToTarType`, declared in a sibling file of
this package not under `src/`, maps the entry-type names of §3 (regular,
hardlink, symlink, char/block device, directory, fifo) to `tar` type bytes
and rejects unknown names. -/
def typeToTarType (t : String) : Except GoError Char :=
  if t = "reg" then .ok '0'
  else if t = "hardlink" then .ok '1'
  else if t = "symlink" then .ok '2'
  else if t = "char" then .ok '3'
  else if t = "block" then .ok '4'
  else if t = "dir" then .ok '5'
  else if t = "fifo" then .ok '6'
  else .error (.unknownType t)

/-- Syscalls `setFileAttrs` can issue, in trace order. -/
inductive AttrEffect where
  | openParent
  | chown
  | setxattr (k : String) (v : List Nat)
  | utimes
  | chmod
  deriving DecidableEq, Repr

/-- Outcomes the environment supplies for each syscall `setFileAttrs` makes:
`none` is success, `some e` the errno. -/
structure AttrEnv where
  openParent : Except GoError Nat
  chown : Option Errno
  setxattr : String → List Nat → Option Errno
  utimes : Option Errno
  chmod : Option Errno

/-- Model of `canIgnore` (from `setFileAttrs`): success, `ENOSYS` and `ENOTSUP` are
tolerable. -/
def canIgnore : Option Errno → Bool
  | none => true
  | some .ENOSYS => true
  | some .ENOTSUP => true
  | some _ => false

/-- The xattr loop of `setFileAttrs`: skip reserved names, decode each stored
value from base64 (returning the decode error before any syscall for that
attribute), issue `fsetxattr`, tolerate `ENOSYS`/`ENOTSUP`. -/
def applyXattrs (env : AttrEnv) : List (String × String) → Option GoError × List AttrEffect
  | [] => (none, [])
  | (k, v) :: rest =>
    if k ∈ xattrsToIgnore then applyXattrs env rest
    else
      match base64Decode v with
      | none => (some (.decodeErr v), [])
      | some data =>
        if canIgnore (env.setxattr k data) then
          ((applyXattrs env rest).1, AttrEffect.setxattr k data :: (applyXattrs env rest).2)
        else
          match env.setxattr k data with
          | some e => (some (.xattrErr k e), [AttrEffect.setxattr k data])
          | none => (none, [AttrEffect.setxattr k data])

/-- The final `doChmod` step of `setFileAttrs`: its error unless tolerable. -/
def chmodStep (env : AttrEnv) : Option GoError :=
  match env.chmod with
  | some e2 => if e2 = Errno.ENOSYS ∨ e2 = Errno.ENOTSUP then none else some (.chmodErr e2)
  | none => none

/-- The `doUtimes` / `doChmod` tail of `setFileAttrs`: `doUtimes` is always
issued; a non-tolerable failure stops before `doChmod`. -/
def utimesChmodTail (env : AttrEnv) : Option GoError × List AttrEffect :=
  match env.utimes with
  | some e =>
    if e = Errno.ENOSYS ∨ e = Errno.ENOTSUP then
      (chmodStep env, [AttrEffect.utimes, AttrEffect.chmod])
    else (some (.utimesErr e), [AttrEffect.utimes])
  | none => (chmodStep env, [AttrEffect.utimes, AttrEffect.chmod])

/-- The chown / xattr / utimes / chmod sequence of `setFileAttrs`, after the
skip flag, handle validity, type and parent-directory steps have passed. -/
def setAttrsBody (env : AttrEnv) (metadata : FileMetadata) (ignoreChownErrors : Bool) :
    Option GoError × List AttrEffect :=
  match env.chown, ignoreChownErrors with
  | some e, false => (some (GoError.chownErr e), [AttrEffect.chown])
  | _, _ =>
    match applyXattrs env metadata.xattrs with
    | (some e, xeffs) => (some e, AttrEffect.chown :: xeffs)
    | (none, xeffs) =>
      ((utimesChmodTail env).1, AttrEffect.chown :: xeffs ++ (utimesChmodTail env).2)

/-- Model of `setFileAttrs`: no-op when `skipSetAttrs` is set; "invalid file" for a nil
handle or negative descriptor; resolve the tar type; symlinks force the
by-path mode; in by-path mode open the parent directory first; then run the
chown / xattr / utimes / chmod sequence.  The handle is `none` for a nil
`*os.File`, `some fd` otherwise. -/
def setFileAttrs (env : AttrEnv) (file : Option Int) (mode : Nat)
    (metadata : FileMetadata) (ignoreChownErrors : Bool) (usePath0 : Bool) :
    Option GoError × List AttrEffect :=
  if metadata.skipSetAttrs then (none, [])
  else
    match file with
    | none => (some .invalidFile, [])
    | some fd =>
      if fd < 0 then (some .invalidFile, [])
      else
        match typeToTarType metadata.type with
        | .error e => (some e, [])
        | .ok t =>
          let usePath := if t = '2' then true else usePath0
          if usePath ∧ goDir metadata.name ≠ "" then
            match env.openParent with
            | .error e => (some e, [AttrEffect.openParent])
            | .ok _ =>
              ((setAttrsBody env metadata ignoreChownErrors).1,
                AttrEffect.openParent :: (setAttrsBody env metadata ignoreChownErrors).2)
          else
            setAttrsBody env metadata ignoreChownErrors

/-! ### `doHardLink` and `copyFileContent` -/

/-- Syscalls and operations `copyFileContent` / `doHardLink` can issue. -/
inductive CopyEffect where
  | statSrc
  | openDestDir
  | linkat
  | unlinkat
  | openDest
  | copyContent
  | closeFd (fd : Nat)
  deriving DecidableEq, Repr

/-- Environment outcomes for `doHardLink`: the first `linkat` attempt, and the
retry after `unlinkat` when the first fails with `EEXIST`. -/
structure LinkEnv where
  linkat : Option GoError
  retryLinkat : Option GoError

/-- Model of `doHardLink`: link the source (via its `/proc/self/fd` path) into the
destination directory; if the destination exists, unlink it and retry once. -/
def doHardLink (env : LinkEnv) : Option GoError × List CopyEffect :=
  match env.linkat with
  | none => (none, [CopyEffect.linkat])
  | some e =>
    if isExist e then
      (env.retryLinkat, [CopyEffect.linkat, CopyEffect.unlinkat, CopyEffect.linkat])
    else (some e, [CopyEffect.linkat])

/-- Environment outcomes for `copyFileContent`: the stat of the source (its
size on success), the open of the destination's parent directory for the
dedup hardlink, the hardlink attempt itself, the open of the fresh
destination file, and the bulk content copy. -/
structure CopyEnv where
  statSrc : Except GoError Int
  openDestDir : Except GoError Nat
  link : LinkEnv
  openDest : Except GoError Nat
  copyRegularToFile : Option GoError

/-- Result of `copyFileContent`: the returned `*os.File` (as `some fd`), the
returned size, the returned error, the entry's `skipSetAttrs` flag after the
call, and the trace of issued operations. -/
structure CopyResult where
  file : Option Nat
  size : Int
  err : Option GoError
  skipSetAttrs : Bool
  effects : List CopyEffect
  deriving DecidableEq, Repr

/-- The non-dedup tail of `copyFileContent`: open a fresh file under the root
and bulk-copy the content into it (lines 94-105 of the source). -/
def fallbackCopy (env : CopyEnv) (skip : Bool) (size : Int) : CopyResult :=
  match env.openDest with
  | .error e => ⟨none, -1, some (.wrapped "open file under rootfs for copy" e), skip, [CopyEffect.openDest]⟩
  | .ok dstFd =>
    match env.copyRegularToFile with
    | some e =>
      ⟨none, -1, some (.wrapped "copy to file under rootfs" e), skip,
        [CopyEffect.openDest, CopyEffect.copyContent, CopyEffect.closeFd dstFd]⟩
    | none => ⟨some dstFd, size, none, skip, [CopyEffect.openDest, CopyEffect.copyContent]⟩

/-- Model of `copyFileContent`: stat the source; with `useHardLinks`, open the
destination's parent and attempt `doHardLink` — on success set
`skipSetAttrs`, return no handle and the source's size; on any dedup failure
fall through to `fallbackCopy`.  `skip` is the entry's `skipSetAttrs` flag on
entry. -/
def copyFileContent (env : CopyEnv) (skip : Bool) (useHardLinks : Bool) : CopyResult :=
  match env.statSrc with
  | .error e => ⟨none, -1, some (.wrapped "copy file content" e), skip, [CopyEffect.statSrc]⟩
  | .ok size =>
    if useHardLinks then
      match env.openDestDir with
      | .ok destDirFd =>
        match doHardLink env.link with
        | (none, les) =>
          ⟨none, size, none, true,
            CopyEffect.statSrc :: CopyEffect.openDestDir :: les ++ [CopyEffect.closeFd destDirFd]⟩
        | (some _, les) =>
          let f := fallbackCopy env skip size
          ⟨f.file, f.size, f.err, f.skipSetAttrs,
            CopyEffect.statSrc :: CopyEffect.openDestDir :: les ++ f.effects ++ [CopyEffect.closeFd destDirFd]⟩
      | .error _ =>
        let f := fallbackCopy env skip size
        ⟨f.file, f.size, f.err, f.skipSetAttrs,
          CopyEffect.statSrc :: CopyEffect.openDestDir :: f.effects⟩
    else
      let f := fallbackCopy env skip size
      ⟨f.file, f.size, f.err, f.skipSetAttrs, CopyEffect.statSrc :: f.effects⟩

/-! ### `openFileUnderRootFallback` -/

/-- Model of `unix.O_NOFOLLOW` on Linux. -/
def oNOFOLLOW : Nat := 0x20000

/-- Descriptor lifecycle events of the fallback opener. -/
inductive FbEffect where
  | close (fd : Nat)
  deriving DecidableEq, Repr

/-- Environment for `openFileUnderRootFallback`: `os.Readlink` keyed by the
path read (used both on `/proc/self/fd/dirfd` and on the opened descriptor's
proc path), `securejoin.SecureJoin`, `unix.Open` of the resolved parent with
`O_PATH`, and `unix.Openat`. -/
structure FallbackEnv where
  readlink : String → Except GoError String
  secureJoin : String → String → Except GoError String
  openPathFd : String → Except GoError Nat
  openat : Nat → String → Nat → Nat → Except GoError Nat

/-- The open phase of `openFileUnderRootFallback` (source lines 220-254):
with `O_NOFOLLOW`, securely join only the parent directory, open it with
`O_PATH`, and open the leaf relative to it; otherwise securely join the whole
name and `openat` the result.  Returns the opened descriptor, the immediate
effects, and the deferred close of the parent descriptor. -/
def fallbackOpenPhase (env : FallbackEnv) (dirfd : Nat) (name : String)
    (flags : Nat) (mode : Nat) : Except GoError Nat × List FbEffect :=
  let root := procPathForFd dirfd
  let hasNoFollow := flags &&& oNOFOLLOW ≠ 0
  if hasNoFollow then
    let (dirName, baseName) := goSplit name
    match (if dirName ≠ "" ∧ dirName ≠ "." then env.secureJoin root dirName else .ok root) with
    | .error e => (.error e, [])
    | .ok newRoot =>
      match env.openPathFd newRoot with
      | .error e => (.error e, [])
      | .ok parentDirfd =>
        match env.openat parentDirfd baseName flags mode with
        | .error e => (.error e, [FbEffect.close parentDirfd])
        | .ok fd => (.ok fd, [FbEffect.close parentDirfd])
  else
    match env.secureJoin root name with
    | .error e => (.error e, [])
    | .ok newPath =>
      match env.openat dirfd newPath flags mode with
      | .error e => (.error e, [])
      | .ok fd => (.ok fd, [])

/-- The containment verification tail of `openFileUnderRootFallback` (source
lines 256-268): read the opened descriptor's real path and require the root's
real path as a string prefix, closing the descriptor and failing with the
escape error otherwise. -/
def fallbackCheck (env : FallbackEnv) (name : String) (targetRoot : String) (fd : Nat) :
    Except GoError Nat × List FbEffect :=
  match env.readlink (procPathForFd fd) with
  | .error e => (.error e, [FbEffect.close fd])
  | .ok target =>
    if target.startsWith targetRoot then (.ok fd, [])
    else (.error (.escape name), [FbEffect.close fd])

/-- Model of `openFileUnderRootFallback`: resolve the root's real path, run the open
phase, then verify containment of the opened descriptor.  The deferred close
of the parent descriptor (from the `O_NOFOLLOW` branch) runs after the check,
as `defer` does in the source. -/
def openFileUnderRootFallback (env : FallbackEnv) (dirfd : Nat) (name : String)
    (flags : Nat) (mode : Nat) : Except GoError Nat × List FbEffect :=
  match env.readlink (procPathForFd dirfd) with
  | .error e => (.error e, [])
  | .ok targetRoot =>
    match fallbackOpenPhase env dirfd name flags mode with
    | (.error e, defs) => (.error e, defs)
    | (.ok fd, defs) =>
      let (res, ceffs) := fallbackCheck env name targetRoot fd
      (res, ceffs ++ defs)

/-! ### `openFileUnderRootRaw` and the `skipOpenat2` flag -/

/-- Which opener `openFileUnderRootRaw` used on one call. -/
inductive RawEffect where
  | dup
  | openat2Call
  | fallbackCall
  deriving DecidableEq, Repr

/-- One call to `openFileUnderRootRaw`: its arguments, the outcome the kernel
gives `openat2` on this call, the outcome of `unix.Dup` for the empty name,
and the per-call environment of the fallback opener. -/
structure RawCall where
  dirfd : Nat
  name : String
  flags : Nat
  mode : Nat
  dupRes : Except GoError Nat
  openat2Res : Except GoError Nat
  fbEnv : FallbackEnv

/-- Model of `openFileUnderRootRaw` as a step over the `skipOpenat2` flag: an empty
name duplicates the root handle; when the flag is set only the fallback runs;
otherwise `openat2` is attempted and, exactly on `ENOSYS`, the flag is set
and the fallback runs.  Returns the result, the new flag, and which openers
were attempted. -/
def openFileUnderRootRawStep (skipOpenat2 : Bool) (c : RawCall) :
    Except GoError Nat × Bool × List RawEffect :=
  if c.name = "" then (c.dupRes, skipOpenat2, [RawEffect.dup])
  else if skipOpenat2 then
    ((openFileUnderRootFallback c.fbEnv c.dirfd c.name c.flags c.mode).1, skipOpenat2,
      [RawEffect.fallbackCall])
  else
    match c.openat2Res with
    | .ok fd => (.ok fd, skipOpenat2, [RawEffect.openat2Call])
    | .error e =>
      if e.isErrno .ENOSYS then
        ((openFileUnderRootFallback c.fbEnv c.dirfd c.name c.flags c.mode).1, true,
          [RawEffect.openat2Call, RawEffect.fallbackCall])
      else (.error e, skipOpenat2, [RawEffect.openat2Call])

/-- A whole process run: the sequence of `openFileUnderRootRaw` calls threaded
through the process-wide `skipOpenat2` flag, collecting each call's attempts. -/
def runRawCalls (skipOpenat2 : Bool) : List RawCall → Bool × List (List RawEffect)
  | [] => (skipOpenat2, [])
  | c :: rest =>
    let (_, flag', effs) := openFileUnderRootRawStep skipOpenat2 c
    let (flagEnd, trace) := runRawCalls flag' rest
    (flagEnd, effs :: trace)

/-! ### `openOrCreateDirUnderRoot` over a sequential directory tree -/

/-- A path relative to the checkout root, as components. -/
abbrev DirPath := List String

/-- The sequential filesystem abstraction for the directory ensurer: the set
of directories that exist under the root (the root itself is `[]` and always
exists). -/
abbrev DirFs := List DirPath

/-- Whether a directory exists: the root always does. -/
def dirExists (fs : DirFs) (p : DirPath) : Bool := p = [] ∨ p ∈ fs

/-- Model of `openFileUnderRootRaw` with `O_DIRECTORY|O_RDONLY` over the sequential
tree: an empty relative path duplicates `dir`'s handle; otherwise the
directory must exist, else `ENOENT`.  A handle is identified by the canonical
path it is open on. -/
def openRawDir (fs : DirFs) (dir : DirPath) (p : DirPath) : Except Errno DirPath :=
  if p = [] then .ok dir
  else if dirExists fs (dir ++ p) then .ok (dir ++ p) else .error .ENOENT

/-- Model of `unix.Mkdirat` over the sequential tree: fails with `EEXIST` when the
target exists, otherwise records the new directory. -/
def mkdirat (fs : DirFs) (parent : DirPath) (base : String) : Except Errno DirFs :=
  if dirExists fs (parent ++ [base]) then .error .EEXIST
  else .ok ((parent ++ [base]) :: fs)

/-- Model of `openOrCreateDirUnderRoot` over the sequential tree: open the directory;
on `ENOENT` recursively ensure the parent (`filepath.Dir`, i.e. the path with
its last component dropped), `mkdirat` the base into it (any failure returns
the original `ENOENT`), and open the result.  Returns the opened handle's
path and the updated tree. -/
def openOrCreateDirUnderRoot (fs : DirFs) (dir : DirPath) (p : DirPath) :
    Except Errno (DirPath × DirFs) :=
  match openRawDir fs dir p with
  | .ok h => .ok (h, fs)
  | .error e =>
    if _he : e = .ENOENT then
      if hp : p = [] then .error e
      else
        match openOrCreateDirUnderRoot fs dir p.dropLast with
        | .error _ => .error e
        | .ok (pDir, fs1) =>
          match mkdirat fs1 pDir (p.getLast hp) with
          | .error _ => .error e
          | .ok fs2 =>
            match openRawDir fs2 pDir [p.getLast hp] with
            | .ok h => .ok (h, fs2)
            | .error e2 => .error e2
    else .error e
termination_by p.length
decreasing_by
  have hlen : 0 < p.length := by
    cases p with
    | nil => exact absurd rfl hp
    | cons a l => simp
  simp only [List.length_dropLast]
  omega

/-! ### `appendHole` -/

/-- The per-descriptor state `appendHole` touches: the file offset, the file
size, and a count of bytes written through the descriptor by write calls
(`appendHole` issues none). -/
structure FileState where
  pos : Int
  size : Int
  written : Nat
  deriving DecidableEq, Repr

/-- Model of `unix.Seek(fd, off, SEEK_CUR)`: moves the offset relative to the current
position; a negative resulting offset is `EINVAL`. -/
def seekCur (f : FileState) (off : Int) : Except Errno (Int × FileState) :=
  let newOff := f.pos + off
  if newOff < 0 then .error .EINVAL
  else .ok (newOff, { f with pos := newOff })

/-- Model of `unix.Ftruncate(fd, len)`: sets the file size; a negative length is
`EINVAL`.  The offset and the written-byte count are untouched. -/
def ftruncate (f : FileState) (len : Int) : Except Errno FileState :=
  if len < 0 then .error .EINVAL
  else .ok { f with size := len }

/-- Model of `appendHole`: seek forward by `size` from the current offset, then
truncate the file to the resulting offset; no write call is issued. -/
def appendHole (f : FileState) (size : Int) : Except Errno FileState :=
  match seekCur f size with
  | .error e => .error e
  | .ok (off, f1) =>
    match ftruncate f1 off with
    | .error e => .error e
    | .ok f2 => .ok f2

/-! ### `seekableFile.GetBlobAt` -/

/-- Model of `ImageSourceChunk`: offset and length of one requested byte range.
Modelled from the spec ("chunk descriptor: offset + length"); the struct
itself is declared in a sibling file of this package not under `src/`. -/
structure ImageSourceChunk where
  offset : Nat
  length : Nat
  deriving DecidableEq, Repr

/-- Model of `io.NewSectionReader(reader, off, n)`: a length-bounded view of the
shared source starting at `off`. -/
structure SectionReader where
  off : Nat
  len : Nat
  deriving DecidableEq, Repr

/-- Reading a section reader to exhaustion over a concrete source: the bytes
of the shared source from `off`, bounded by `len`. -/
def sectionReadAll (src : List Nat) (s : SectionReader) : List Nat :=
  (src.drop s.off).take s.len

/-- Events observable on the two channels `GetBlobAt` returns. -/
inductive BlobEvent where
  | stream (s : SectionReader)
  | errSignal (e : GoError)
  | closeStreams
  | closeErrs
  deriving DecidableEq, Repr

/-- The producer goroutine of `GetBlobAt`: one section reader per requested
chunk, in request order, then both channels are closed. -/
def getBlobAtProducer : List ImageSourceChunk → List BlobEvent
  | [] => [BlobEvent.closeStreams, BlobEvent.closeErrs]
  | c :: rest => BlobEvent.stream ⟨c.offset, c.length⟩ :: getBlobAtProducer rest

/-- Model of `seekableFile.GetBlobAt`: the event sequence the two returned channels
carry, and the immediately returned error (always `nil`). -/
def getBlobAt (chunks : List ImageSourceChunk) : List BlobEvent × Option GoError :=
  (getBlobAtProducer chunks, none)

/-! ### Concrete instances used by witnesses and counterexamples -/

/-- An attribute environment in which every syscall succeeds. -/
def attrEnvOk : AttrEnv := ⟨.ok 4, none, fun _ _ => none, none, none⟩

/-- A regular-file entry marked skip-attributes. -/
def mdSkip : FileMetadata := ⟨"reg", "a/b", "", 0, 0, none, none, [], true⟩

/-- A regular-file entry not marked skip-attributes, with no xattrs. -/
def mdPlain : FileMetadata := ⟨"reg", "a/b", "", 0, 0, none, none, [], false⟩

/-- A regular-file entry with one valid and one malformed base64 xattr value,
the valid one first in iteration order. -/
def mdBadXattr : FileMetadata :=
  ⟨"reg", "a/b", "", 0, 0, none, none, [("user.a", "QQ=="), ("user.b", "!")], false⟩

/-- A copy environment in which the dedup hardlink succeeds. -/
def copyEnvLinkOk : CopyEnv := ⟨.ok 100, .ok 7, ⟨none, none⟩, .ok 9, none⟩

/-- A copy environment in which the dedup hardlink fails with `EPERM`. -/
def copyEnvLinkFail : CopyEnv := ⟨.ok 100, .ok 7, ⟨some (.errno .EPERM), none⟩, .ok 9, none⟩

/-- A fallback-opener environment whose every resolution stays under the root
real path `/root`. -/
def fbEnvNoop : FallbackEnv :=
  ⟨fun _ => .ok "/root", fun _ n => .ok n, fun _ => .ok 5, fun _ _ _ _ => .ok 6⟩

/-- A raw-opener call whose `openat2` outcome is `ENOSYS`. -/
def rawCallA : RawCall := ⟨3, "x", 0, 0, .ok 4, .error (.errno .ENOSYS), fbEnvNoop⟩

/-- Two concrete chunk requests over a 25-byte source. -/
def chunksAB : List ImageSourceChunk := [⟨0, 10⟩, ⟨20, 5⟩]

end Chunked

namespace Chunked

/-! ## Theorems -/

/-! ### Metadata applier: skip flag and malformed xattr values -/

theorem applyXattrs_cons_ignored (env : AttrEnv) (k v : String)
    (rest : List (String × String)) (h : k ∈ xattrsToIgnore) :
    applyXattrs env ((k, v) :: rest) = applyXattrs env rest := by
  simp [applyXattrs, h]

theorem applyXattrs_cons_bad (env : AttrEnv) (k v : String)
    (rest : List (String × String)) (hig : k ∉ xattrsToIgnore)
    (hd : base64Decode v = none) :
    applyXattrs env ((k, v) :: rest) = (some (.decodeErr v), []) := by
  simp [applyXattrs, hig, hd]

theorem applyXattrs_cons_ok (env : AttrEnv) (k v : String) (data : List Nat)
    (rest : List (String × String)) (hig : k ∉ xattrsToIgnore)
    (hd : base64Decode v = some data) (hci : canIgnore (env.setxattr k data) = true) :
    applyXattrs env ((k, v) :: rest) =
      ((applyXattrs env rest).1, AttrEffect.setxattr k data :: (applyXattrs env rest).2) := by
  simp [applyXattrs, hig, hd, hci]

theorem applyXattrs_cons_fail (env : AttrEnv) (k v : String) (data : List Nat) (e : Errno)
    (rest : List (String × String)) (hig : k ∉ xattrsToIgnore)
    (hd : base64Decode v = some data) (hsx : env.setxattr k data = some e)
    (hcie : canIgnore (some e) = false) :
    applyXattrs env ((k, v) :: rest) =
      (some (.xattrErr k e), [AttrEffect.setxattr k data]) := by
  simp [applyXattrs, hig, hd, hsx, hcie]

theorem applyXattrs_effects_decoded (env : AttrEnv) (xs : List (String × String)) :
    ∀ k d, AttrEffect.setxattr k d ∈ (applyXattrs env xs).2 →
      ∃ v, (k, v) ∈ xs ∧ base64Decode v = some d := by
  induction xs with
  | nil => intro k d hmem; simp [applyXattrs] at hmem
  | cons kv rest ih =>
    obtain ⟨k0, v0⟩ := kv
    intro k d hmem
    by_cases hig : k0 ∈ xattrsToIgnore
    · rw [applyXattrs_cons_ignored env k0 v0 rest hig] at hmem
      obtain ⟨v, hv, hd⟩ := ih k d hmem
      exact ⟨v, List.mem_cons_of_mem _ hv, hd⟩
    · cases hdec : base64Decode v0 with
      | none => rw [applyXattrs_cons_bad env k0 v0 rest hig hdec] at hmem; simp at hmem
      | some data =>
        by_cases hci : canIgnore (env.setxattr k0 data) = true
        · rw [applyXattrs_cons_ok env k0 v0 data rest hig hdec hci] at hmem
          rcases List.mem_cons.mp hmem with heq | htail
          · injection heq with h1 h2
            subst h1; subst h2
            exact ⟨v0, List.mem_cons_self _ _, hdec⟩
          · obtain ⟨v, hv, hd⟩ := ih k d htail
            exact ⟨v, List.mem_cons_of_mem _ hv, hd⟩
        · cases hsx : env.setxattr k0 data with
          | none => rw [hsx] at hci; exact absurd rfl hci
          | some e =>
            have hcie : canIgnore (some e) = false := by
              rw [hsx] at hci
              exact Bool.not_eq_true _ ▸ (by simpa using hci)
            rw [applyXattrs_cons_fail env k0 v0 data e rest hig hdec hsx hcie] at hmem
            simp at hmem
            obtain ⟨h1, h2⟩ := hmem
            subst h1; subst h2
            exact ⟨v0, List.mem_cons_self _ _, hdec⟩

theorem applyXattrs_err_of_malformed (env : AttrEnv) (xs : List (String × String))
    (h : ∃ kv, kv ∈ xs ∧ kv.1 ∉ xattrsToIgnore ∧ base64Decode kv.2 = none) :
    (applyXattrs env xs).1 ≠ none := by
  induction xs with
  | nil => obtain ⟨kv, hmem, _⟩ := h; simp at hmem
  | cons kv0 rest ih =>
    obtain ⟨k0, v0⟩ := kv0
    obtain ⟨kv, hmem, hni, hbad⟩ := h
    by_cases hig : k0 ∈ xattrsToIgnore
    · rw [applyXattrs_cons_ignored env k0 v0 rest hig]
      rcases List.mem_cons.mp hmem with heq | htail
      · subst heq; exact absurd hig hni
      · exact ih ⟨kv, htail, hni, hbad⟩
    · cases hdec : base64Decode v0 with
      | none => rw [applyXattrs_cons_bad env k0 v0 rest hig hdec]; simp
      | some data =>
        by_cases hci : canIgnore (env.setxattr k0 data) = true
        · rw [applyXattrs_cons_ok env k0 v0 data rest hig hdec hci]
          rcases List.mem_cons.mp hmem with heq | htail
          · subst heq; rw [hdec] at hbad; cases hbad
          · exact ih ⟨kv, htail, hni, hbad⟩
        · cases hsx : env.setxattr k0 data with
          | none => rw [hsx] at hci; exact absurd rfl hci
          | some e =>
            have hcie : canIgnore (some e) = false := by
              rw [hsx] at hci
              exact Bool.not_eq_true _ ▸ (by simpa using hci)
            rw [applyXattrs_cons_fail env k0 v0 data e rest hig hdec hsx hcie]
            simp

theorem utimesChmodTail_no_setxattr (env : AttrEnv) (k : String) (d : List Nat) :
    AttrEffect.setxattr k d ∉ (utimesChmodTail env).2 := by
  rw [utimesChmodTail]
  split <;> first
    | simp
    | (split <;> simp)

theorem setAttrsBody_after_chown (env : AttrEnv) (md : FileMetadata) (ign : Bool)
    (hch : env.chown = none ∨ ign = true) :
    setAttrsBody env md ign =
      match applyXattrs env md.xattrs with
      | (some e, xeffs) => (some e, AttrEffect.chown :: xeffs)
      | (none, xeffs) =>
        ((utimesChmodTail env).1, AttrEffect.chown :: xeffs ++ (utimesChmodTail env).2) := by
  rcases hch with hch | hch
  · simp [setAttrsBody, hch]
  · subst hch
    cases hc : env.chown <;> simp [setAttrsBody, hc]

theorem setAttrsBody_chown_fatal (env : AttrEnv) (md : FileMetadata) (e : Errno)
    (hch : env.chown = some e) :
    setAttrsBody env md false = (some (GoError.chownErr e), [AttrEffect.chown]) := by
  simp [setAttrsBody, hch]

theorem setAttrsBody_effects_sub (env : AttrEnv) (md : FileMetadata) (ign : Bool) :
    ∀ k d, AttrEffect.setxattr k d ∈ (setAttrsBody env md ign).2 →
      AttrEffect.setxattr k d ∈ (applyXattrs env md.xattrs).2 := by
  intro k d hmem
  have hcases : env.chown = none ∨ ign = true ∨ (∃ e, env.chown = some e ∧ ign = false) := by
    cases hch : env.chown with
    | none => exact Or.inl rfl
    | some e =>
      cases ign with
      | true => exact Or.inr (Or.inl rfl)
      | false => exact Or.inr (Or.inr ⟨e, rfl, rfl⟩)
  have hbody : (env.chown = none ∨ ign = true) →
      AttrEffect.setxattr k d ∈ (applyXattrs env md.xattrs).2 := by
    intro hch
    rw [setAttrsBody_after_chown env md ign hch] at hmem
    cases hax : applyXattrs env md.xattrs with
    | mk e1 xeffs =>
      rw [hax] at hmem
      cases e1 with
      | some e =>
        simp at hmem
        exact hmem
      | none =>
        simp at hmem
        rcases hmem with h | h
        · exact h
        · exact absurd h (utimesChmodTail_no_setxattr env k d)
  rcases hcases with hch | hig | ⟨e, hch, hig⟩
  · exact hbody (Or.inl hch)
  · exact hbody (Or.inr hig)
  · subst hig
    rw [setAttrsBody_chown_fatal env md e hch] at hmem
    simp at hmem

theorem setAttrsBody_err_of_malformed (env : AttrEnv) (md : FileMetadata) (ign : Bool)
    (h : ∃ kv, kv ∈ md.xattrs ∧ kv.1 ∉ xattrsToIgnore ∧ base64Decode kv.2 = none) :
    (setAttrsBody env md ign).1 ≠ none := by
  have hax := applyXattrs_err_of_malformed env md.xattrs h
  have hcases : env.chown = none ∨ ign = true ∨ (∃ e, env.chown = some e ∧ ign = false) := by
    cases hch : env.chown with
    | none => exact Or.inl rfl
    | some e =>
      cases ign with
      | true => exact Or.inr (Or.inl rfl)
      | false => exact Or.inr (Or.inr ⟨e, rfl, rfl⟩)
  have hbody : (env.chown = none ∨ ign = true) → (setAttrsBody env md ign).1 ≠ none := by
    intro hch
    rw [setAttrsBody_after_chown env md ign hch]
    cases haxe : applyXattrs env md.xattrs with
    | mk e1 xeffs =>
      cases e1 with
      | none => exact absurd (by rw [haxe]) hax
      | some e => simp
  rcases hcases with hch | hig | ⟨e, hch, hig⟩
  · exact hbody (Or.inl hch)
  · exact hbody (Or.inr hig)
  · subst hig
    rw [setAttrsBody_chown_fatal env md e hch]
    simp

theorem setFileAttrs_effects_sub (env : AttrEnv) (file : Option Int) (mode : Nat)
    (md : FileMetadata) (ign up : Bool) :
    ∀ k d, AttrEffect.setxattr k d ∈ (setFileAttrs env file mode md ign up).2 →
      AttrEffect.setxattr k d ∈ (applyXattrs env md.xattrs).2 := by
  intro k d hmem
  by_cases hs : md.skipSetAttrs
  · simp [setFileAttrs, hs] at hmem
  · simp only [setFileAttrs, hs, if_false, Bool.false_eq_true] at hmem
    cases file with
    | none => simp at hmem
    | some fd =>
      by_cases hfd : fd < 0
      · simp [hfd] at hmem
      · simp only [hfd, if_false] at hmem
        cases ht : typeToTarType md.type with
        | error e => simp [ht] at hmem
        | ok t =>
          simp only [ht] at hmem
          by_cases hc : ((if t = '2' then true else up) = true ∧ goDir md.name ≠ "")
          · simp only [hc, if_pos, and_self] at hmem
            rcases hc with ⟨hc1, hc2⟩
            simp only [hc1, hc2, ne_eq, not_false_iff, and_true, if_true] at hmem
            cases hop : env.openParent with
            | error e => simp [hop] at hmem
            | ok pfd =>
              simp only [hop] at hmem
              rcases List.mem_cons.mp hmem with h | h
              · simp at h
              · exact setAttrsBody_effects_sub env md ign k d h
          · rw [if_neg (by simpa using hc)] at hmem
            exact setAttrsBody_effects_sub env md ign k d hmem

theorem setFileAttrs_err_of_malformed (env : AttrEnv) (file : Option Int) (mode : Nat)
    (md : FileMetadata) (ign up : Bool)
    (hskip : md.skipSetAttrs = false)
    (h : ∃ kv, kv ∈ md.xattrs ∧ kv.1 ∉ xattrsToIgnore ∧ base64Decode kv.2 = none) :
    (setFileAttrs env file mode md ign up).1 ≠ none := by
  simp only [setFileAttrs, hskip, if_false, Bool.false_eq_true]
  cases file with
  | none => simp
  | some fd =>
    by_cases hfd : fd < 0
    · simp [hfd]
    · simp only [hfd, if_false]
      cases ht : typeToTarType md.type with
      | error e => simp [ht]
      | ok t =>
        simp only [ht]
        by_cases hc : ((if t = '2' then true else up) = true ∧ goDir md.name ≠ "")
        · rcases hc with ⟨hc1, hc2⟩
          simp only [hc1, hc2, ne_eq, not_false_iff, and_true, if_true]
          cases hop : env.openParent with
          | error e => simp [hop]
          | ok pfd =>
            simp only [hop]
            simpa using setAttrsBody_err_of_malformed env md ign h
        · rw [if_neg (by simpa using hc)]
          exact setAttrsBody_err_of_malformed env md ign h

/-- C5: an entry marked skip-attributes makes `setFileAttrs` a successful
no-op: it returns nil without issuing any ownership, extended-attribute,
timestamp or mode syscall. -/
theorem setFileAttrs_skip_noop (env : AttrEnv) (file : Option Int) (mode : Nat)
    (md : FileMetadata) (ign up : Bool) (h : md.skipSetAttrs = true) :
    setFileAttrs env file mode md ign up = (none, []) := by
  simp [setFileAttrs, h]

/-- C5 witness: a concrete skip-attributes entry. -/
theorem setFileAttrs_skip_noop_witness :
    setFileAttrs attrEnvOk (some 3) 420 mdSkip false false = (none, []) :=
  setFileAttrs_skip_noop attrEnvOk (some 3) 420 mdSkip false false rfl

/-- C10: the skip-attributes check precedes handle validation: entries marked
skip-attributes succeed even with a nil or negative-descriptor handle, and
only unmarked entries get the "invalid file" error for such a handle. -/
theorem setFileAttrs_skip_before_validity (env : AttrEnv) (file : Option Int)
    (mode : Nat) (md : FileMetadata) (ign up : Bool)
    (h : file = none ∨ ∃ fd, file = some fd ∧ fd < 0) :
    (setFileAttrs env file mode md ign up).1 =
      if md.skipSetAttrs then none else some GoError.invalidFile := by
  by_cases hs : md.skipSetAttrs
  · simp [setFileAttrs, hs]
  · rcases h with h | ⟨fd, hf, hneg⟩
    · subst h; simp [setFileAttrs, hs]
    · subst hf; simp [setFileAttrs, hs, hneg]

/-- C10 witness: a nil handle on an unmarked entry. -/
theorem setFileAttrs_skip_before_validity_witness :
    (setFileAttrs attrEnvOk none 420 mdPlain false false).1 =
      if mdPlain.skipSetAttrs then none else some GoError.invalidFile :=
  setFileAttrs_skip_before_validity attrEnvOk none 420 mdPlain false false (Or.inl rfl)

/-- C4 counterexample: with xattr map `{"user.a": "QQ==", "user.b": "!"}`
iterated with the valid value first, `setFileAttrs` issues the setxattr
syscall for `user.a` and only afterwards fails decoding `"!"`: a setxattr
syscall did happen for an attribute of the entry although a stored value
fails base64 decoding, refuting "no setxattr syscall happens for any
attribute of the entry". -/
theorem setFileAttrs_malformed_counterexample :
    base64Decode "!" = none ∧
    (setFileAttrs attrEnvOk (some 3) 420 mdBadXattr false false).1 =
      some (GoError.decodeErr "!") ∧
    AttrEffect.setxattr "user.a" [65] ∈
      (setFileAttrs attrEnvOk (some 3) 420 mdBadXattr false false).2 := by
  decide

/-- C4 (amended): if some extended attribute at a non-reserved key stores a
value that is not valid base64, `setFileAttrs` (on an entry not marked
skip-attributes) fails, and every setxattr syscall it issued carries data
obtained by a successful base64 decode of a stored value — so no setxattr is
ever issued for the malformed attribute, whose decode error occurs before
its own syscall; setxattr calls for valid attributes earlier in iteration
order may already have been issued. -/
theorem setFileAttrs_malformed_fails_before_syscall (env : AttrEnv) (file : Option Int)
    (mode : Nat) (md : FileMetadata) (ign up : Bool)
    (hskip : md.skipSetAttrs = false)
    (h : ∃ kv, kv ∈ md.xattrs ∧ kv.1 ∉ xattrsToIgnore ∧ base64Decode kv.2 = none) :
    (setFileAttrs env file mode md ign up).1 ≠ none ∧
    ∀ k d, AttrEffect.setxattr k d ∈ (setFileAttrs env file mode md ign up).2 →
      ∃ v, (k, v) ∈ md.xattrs ∧ base64Decode v = some d :=
  ⟨setFileAttrs_err_of_malformed env file mode md ign up hskip h,
    fun k d hm =>
      applyXattrs_effects_decoded env md.xattrs k d
        (setFileAttrs_effects_sub env file mode md ign up k d hm)⟩

/-- C4 witness: the amended statement at the concrete malformed entry. -/
theorem setFileAttrs_malformed_fails_witness :
    (setFileAttrs attrEnvOk (some 3) 420 mdBadXattr false false).1 ≠ none ∧
    ∀ k d, AttrEffect.setxattr k d ∈
        (setFileAttrs attrEnvOk (some 3) 420 mdBadXattr false false).2 →
      ∃ v, (k, v) ∈ mdBadXattr.xattrs ∧ base64Decode v = some d :=
  setFileAttrs_malformed_fails_before_syscall attrEnvOk (some 3) 420 mdBadXattr false false
    rfl ⟨("user.b", "!"), by decide, by decide, rfl⟩

/-! ### File materializer: dedup hardlink and fallback copy -/

theorem fallbackCopy_skip (env : CopyEnv) (skip : Bool) (sz : Int) :
    (fallbackCopy env skip sz).skipSetAttrs = skip := by
  cases ho : env.openDest with
  | error e => simp [fallbackCopy, ho]
  | ok fd => cases hc : env.copyRegularToFile <;> simp [fallbackCopy, ho, hc]

theorem doHardLink_only_link_ops (l : LinkEnv) :
    ∀ x, x ∈ (doHardLink l).2 → x = CopyEffect.linkat ∨ x = CopyEffect.unlinkat := by
  intro x hx
  rcases hl : l.linkat with _ | e
  · simp [doHardLink, hl] at hx; exact Or.inl hx
  · by_cases he : isExist e = true
    · simp [doHardLink, hl, he] at hx
      rcases hx with h | h | h
      · exact Or.inl h
      · exact Or.inr h
      · exact Or.inl h
    · simp [doHardLink, hl, he] at hx; exact Or.inl hx

/-- C2: with deduplication enabled, a successful hardlink from the content
source makes `copyFileContent` mark the entry skip-attributes, return the
stat-derived source size and no new handle, and perform no content copy;
when the dedup path fails, it opens a fresh file under the root, copies the
content, and returns the new handle and the source's size. -/
theorem copyFileContent_dedup (env : CopyEnv) (skip : Bool) (sz : Int) (d : Nat)
    (hstat : env.statSrc = .ok sz) :
    (env.openDestDir = .ok d → (doHardLink env.link).1 = none →
      copyFileContent env skip true =
        ⟨none, sz, none, true,
          CopyEffect.statSrc :: CopyEffect.openDestDir :: (doHardLink env.link).2 ++
            [CopyEffect.closeFd d]⟩ ∧
      CopyEffect.copyContent ∉ (copyFileContent env skip true).effects) ∧
    (∀ fd2, env.openDest = .ok fd2 → env.copyRegularToFile = none →
      ((∃ e, env.openDestDir = .error e) ∨ (∃ e, (doHardLink env.link).1 = some e)) →
      (copyFileContent env skip true).file = some fd2 ∧
      (copyFileContent env skip true).size = sz ∧
      (copyFileContent env skip true).err = none ∧
      (copyFileContent env skip true).skipSetAttrs = skip ∧
      CopyEffect.copyContent ∈ (copyFileContent env skip true).effects) := by
  constructor
  · intro hd hl
    cases hdl : doHardLink env.link with
    | mk e1 les =>
      rw [hdl] at hl
      simp at hl
      subst hl
      have heq : copyFileContent env skip true =
          ⟨none, sz, none, true,
            CopyEffect.statSrc :: CopyEffect.openDestDir :: les ++ [CopyEffect.closeFd d]⟩ := by
        simp [copyFileContent, hstat, hd, hdl]
      refine ⟨by simp [heq, hdl], ?_⟩
      rw [heq]
      intro hx
      simp at hx
      rcases doHardLink_only_link_ops env.link CopyEffect.copyContent (by rw [hdl]; exact hx)
        with h | h <;> simp at h
  · intro fd2 hfd2 hcp hfail
    have hfb : fallbackCopy env skip sz =
        ⟨some fd2, sz, none, skip, [CopyEffect.openDest, CopyEffect.copyContent]⟩ := by
      simp [fallbackCopy, hfd2, hcp]
    rcases hfail with ⟨e, he⟩ | ⟨e, he⟩
    · simp [copyFileContent, hstat, he, hfb]
    · cases hod : env.openDestDir with
      | error e2 => simp [copyFileContent, hstat, hod, hfb]
      | ok d2 =>
        cases hdl : doHardLink env.link with
        | mk e1 les =>
          rw [hdl] at he
          simp at he
          subst he
          simp [copyFileContent, hstat, hod, hdl, hfb]

/-- C2 witness: a successful dedup hardlink on a concrete environment. -/
theorem copyFileContent_dedup_witness :
    copyFileContent copyEnvLinkOk false true =
      ⟨none, 100, none, true,
        CopyEffect.statSrc :: CopyEffect.openDestDir :: (doHardLink copyEnvLinkOk.link).2 ++
          [CopyEffect.closeFd 7]⟩ ∧
    CopyEffect.copyContent ∉ (copyFileContent copyEnvLinkOk false true).effects :=
  (copyFileContent_dedup copyEnvLinkOk false 100 7 rfl).1 rfl rfl

/-- C9: when the dedup hardlink attempt fails — including failure to open the
destination's parent directory — `copyFileContent` silently falls back to the
fresh-file copy: its returned handle, size and error are exactly those of a
run with deduplication disabled, so the hardlink error is never surfaced, and
the entry's skip-attributes flag stays unset. -/
theorem copyFileContent_linkfail_silent (env : CopyEnv)
    (h : (∃ e, env.openDestDir = .error e) ∨ (∃ e, (doHardLink env.link).1 = some e)) :
    (copyFileContent env false true).file = (copyFileContent env false false).file ∧
    (copyFileContent env false true).size = (copyFileContent env false false).size ∧
    (copyFileContent env false true).err = (copyFileContent env false false).err ∧
    (copyFileContent env false true).skipSetAttrs = false := by
  cases hst : env.statSrc with
  | error e0 => simp [copyFileContent, hst]
  | ok sz =>
    cases hod : env.openDestDir with
    | error e2 => simp [copyFileContent, hst, hod, fallbackCopy_skip]
    | ok d2 =>
      rcases h with ⟨e, he⟩ | ⟨e, he⟩
      · rw [hod] at he; cases he
      · cases hdl : doHardLink env.link with
        | mk e1 les =>
          rw [hdl] at he
          simp at he
          subst he
          simp [copyFileContent, hst, hod, hdl, fallbackCopy_skip]

/-- C9 witness: a concrete failing hardlink. -/
theorem copyFileContent_linkfail_witness :
    (copyFileContent copyEnvLinkFail false true).file =
      (copyFileContent copyEnvLinkFail false false).file ∧
    (copyFileContent copyEnvLinkFail false true).size =
      (copyFileContent copyEnvLinkFail false false).size ∧
    (copyFileContent copyEnvLinkFail false true).err =
      (copyFileContent copyEnvLinkFail false false).err ∧
    (copyFileContent copyEnvLinkFail false true).skipSetAttrs = false :=
  copyFileContent_linkfail_silent copyEnvLinkFail (Or.inr ⟨.errno .EPERM, rfl⟩)

/-! ### Chunked blob reader -/

theorem getBlobAtProducer_eq (chunks : List ImageSourceChunk) :
    getBlobAtProducer chunks =
      (chunks.map fun c => BlobEvent.stream ⟨c.offset, c.length⟩) ++
        [BlobEvent.closeStreams, BlobEvent.closeErrs] := by
  induction chunks with
  | nil => rfl
  | cons c rest ih => simp [getBlobAtProducer, ih]

/-- C7: `GetBlobAt` delivers exactly one length-bounded section reader per
requested chunk (a view of the shared source at that chunk's offset and
length), in request order, then closes both the data and the error channel;
no per-chunk error is ever delivered, and the immediately returned error is
nil. -/
theorem getBlobAt_spec (chunks : List ImageSourceChunk) (src : List Nat) :
    (getBlobAt chunks).2 = none ∧
    (getBlobAt chunks).1 =
      (chunks.map fun c => BlobEvent.stream ⟨c.offset, c.length⟩) ++
        [BlobEvent.closeStreams, BlobEvent.closeErrs] ∧
    (∀ e, BlobEvent.errSignal e ∉ (getBlobAt chunks).1) ∧
    (∀ s, BlobEvent.stream s ∈ (getBlobAt chunks).1 →
      (sectionReadAll src s).length ≤ s.len) := by
  refine ⟨rfl, getBlobAtProducer_eq chunks, ?_, ?_⟩
  · intro e hmem
    rw [show (getBlobAt chunks).1 = getBlobAtProducer chunks from rfl,
      getBlobAtProducer_eq chunks] at hmem
    rcases List.mem_append.mp hmem with h | h
    · obtain ⟨c, _, hc⟩ := List.mem_map.mp h
      cases hc
    · simp at h
  · intro s _
    calc (sectionReadAll src s).length
        = min s.len (src.drop s.off).length := List.length_take _ _
      _ ≤ s.len := Nat.min_le_left _ _

/-- C7 witness: two chunks over a 25-byte source. -/
theorem getBlobAt_spec_witness :
    (getBlobAt chunksAB).2 = none ∧
    (getBlobAt chunksAB).1 =
      (chunksAB.map fun c => BlobEvent.stream ⟨c.offset, c.length⟩) ++
        [BlobEvent.closeStreams, BlobEvent.closeErrs] ∧
    (∀ e, BlobEvent.errSignal e ∉ (getBlobAt chunksAB).1) ∧
    (∀ s, BlobEvent.stream s ∈ (getBlobAt chunksAB).1 →
      (sectionReadAll (List.range 25) s).length ≤ s.len) :=
  getBlobAt_spec chunksAB (List.range 25)

/-! ### appendHole -/

/-- C8 counterexample: on a handle whose offset is 0 while the file size is
10, `appendHole` with N = 3 seeks to offset 3 and truncates the file to size
3 — the reported size does not increase by N (it shrinks), refuting the
claim for arbitrary open handles. -/
theorem appendHole_counterexample :
    appendHole ⟨0, 10, 0⟩ 3 = .ok ⟨3, 3, 0⟩ ∧ ¬ ((3 : Int) = 10 + 3) :=
  ⟨rfl, by decide⟩

/-- C8 (amended): on a handle positioned at end of file (offset = size), with
nonnegative size and N, `appendHole` advances the write position by N and
truncates the file to the new position without writing any bytes, so the
reported size increases by exactly N. -/
theorem appendHole_at_eof (f : FileState) (n : Int)
    (hpos : f.pos = f.size) (hsz : 0 ≤ f.size) (hn : 0 ≤ n) :
    appendHole f n = .ok ⟨f.pos + n, f.size + n, f.written⟩ := by
  have h1 : ¬ f.size + n < 0 := by omega
  simp [appendHole, seekCur, ftruncate, hpos, h1]

/-- C8 witness: appending a 4-byte hole at end of a 5-byte file. -/
theorem appendHole_at_eof_witness :
    appendHole ⟨5, 5, 2⟩ 4 = .ok ⟨(5 : Int) + 4, (5 : Int) + 4, 2⟩ :=
  appendHole_at_eof ⟨5, 5, 2⟩ 4 rfl (by decide) (by decide)

/-! ### The openat2 capability flag -/

theorem rawStep_true (c : RawCall) :
    (openFileUnderRootRawStep true c).2.1 = true ∧
    RawEffect.openat2Call ∉ (openFileUnderRootRawStep true c).2.2 := by
  by_cases hn : c.name = "" <;> simp [openFileUnderRootRawStep, hn]

theorem runRawCalls_true (calls : List RawCall) :
    (runRawCalls true calls).1 = true ∧
    ∀ t, t ∈ (runRawCalls true calls).2 → RawEffect.openat2Call ∉ t := by
  induction calls with
  | nil => simp [runRawCalls]
  | cons c rest ih =>
    have hs := rawStep_true c
    cases hst : openFileUnderRootRawStep true c with
    | mk res pr =>
      cases pr with
      | mk flag1 effs =>
        rw [hst] at hs
        simp only at hs
        obtain ⟨hf, hno⟩ := hs
        subst hf
        constructor
        · simp only [runRawCalls, hst]
          exact ih.1
        · intro t ht
          simp only [runRawCalls, hst] at ht
          simp at ht
          rcases ht with h | h
          · subst h; exact hno
          · exact ih.2 t h

/-- C6: the `skipOpenat2` downgrade is one-way: with the flag set, a call
keeps it set, never attempts `openat2`, and (for a nonempty name) uses
exactly the fallback; from the enabled state the flag becomes set precisely
when `openat2` fails with `ENOSYS`; and an entire run started after the
downgrade never attempts `openat2` again and never resets the flag. -/
theorem skipOpenat2_one_way (flag : Bool) (c : RawCall) (calls : List RawCall) :
    (flag = true →
      (openFileUnderRootRawStep flag c).2.1 = true ∧
      RawEffect.openat2Call ∉ (openFileUnderRootRawStep flag c).2.2 ∧
      (c.name ≠ "" → (openFileUnderRootRawStep flag c).2.2 = [RawEffect.fallbackCall])) ∧
    (flag = false →
      ((openFileUnderRootRawStep flag c).2.1 = true ↔
        c.name ≠ "" ∧ ∃ e, c.openat2Res = .error e ∧ e.isErrno .ENOSYS = true)) ∧
    (runRawCalls true calls).1 = true ∧
    (∀ t, t ∈ (runRawCalls true calls).2 → RawEffect.openat2Call ∉ t) := by
  refine ⟨?_, ?_, (runRawCalls_true calls).1, (runRawCalls_true calls).2⟩
  · intro hf
    subst hf
    refine ⟨(rawStep_true c).1, (rawStep_true c).2, ?_⟩
    intro hn
    simp [openFileUnderRootRawStep, hn]
  · intro hf
    subst hf
    by_cases hn : c.name = ""
    · simp [openFileUnderRootRawStep, hn]
    · cases hres : c.openat2Res with
      | ok fd => simp [openFileUnderRootRawStep, hn, hres]
      | error e =>
        by_cases hsys : e.isErrno .ENOSYS = true
        · simp [openFileUnderRootRawStep, hn, hres, hsys]
        · simp [openFileUnderRootRawStep, hn, hres, hsys]

/-- C6 witness: a concrete `ENOSYS` call and a one-call run after downgrade. -/
theorem skipOpenat2_one_way_witness :
    ((true : Bool) = true →
      (openFileUnderRootRawStep true rawCallA).2.1 = true ∧
      RawEffect.openat2Call ∉ (openFileUnderRootRawStep true rawCallA).2.2 ∧
      (rawCallA.name ≠ "" →
        (openFileUnderRootRawStep true rawCallA).2.2 = [RawEffect.fallbackCall])) ∧
    ((true : Bool) = false →
      ((openFileUnderRootRawStep true rawCallA).2.1 = true ↔
        rawCallA.name ≠ "" ∧
          ∃ e, rawCallA.openat2Res = .error e ∧ e.isErrno .ENOSYS = true)) ∧
    (runRawCalls true [rawCallA]).1 = true ∧
    (∀ t, t ∈ (runRawCalls true [rawCallA]).2 → RawEffect.openat2Call ∉ t) :=
  skipOpenat2_one_way true rawCallA [rawCallA]

/-! ### Fallback opener containment -/

/-- C1: under the fallback opener, (a) any successfully returned descriptor
has a real path (read back through proc) that has the root's real path as a
string prefix; (b) whenever the open phase yields a descriptor whose real
path fails that prefix check, the function returns the escape error and the
descriptor is closed. -/
theorem openFileUnderRootFallback_containment (env : FallbackEnv) (dirfd : Nat)
    (name : String) (flags mode : Nat) (targetRoot : String)
    (hroot : env.readlink (procPathForFd dirfd) = .ok targetRoot) :
    (∀ fd, (openFileUnderRootFallback env dirfd name flags mode).1 = .ok fd →
      ∃ target, env.readlink (procPathForFd fd) = .ok target ∧
        target.startsWith targetRoot = true) ∧
    (∀ fd target, (fallbackOpenPhase env dirfd name flags mode).1 = .ok fd →
      env.readlink (procPathForFd fd) = .ok target →
      target.startsWith targetRoot = false →
      (openFileUnderRootFallback env dirfd name flags mode).1 =
        .error (.escape name) ∧
      FbEffect.close fd ∈ (openFileUnderRootFallback env dirfd name flags mode).2) := by
  constructor
  · intro fd hok
    rw [openFileUnderRootFallback] at hok
    rw [hroot] at hok
    simp only at hok
    cases hph : fallbackOpenPhase env dirfd name flags mode with
    | mk r defs =>
      rw [hph] at hok
      cases r with
      | error e => simp at hok
      | ok fd0 =>
        simp only at hok
        cases hrl : env.readlink (procPathForFd fd0) with
        | error e =>
          have hchk : fallbackCheck env name targetRoot fd0 =
              (.error e, [FbEffect.close fd0]) := by
            simp [fallbackCheck, hrl]
          rw [hchk] at hok
          simp at hok
        | ok target =>
          by_cases hpfx : target.startsWith targetRoot = true
          · have hchk : fallbackCheck env name targetRoot fd0 = (.ok fd0, []) := by
              simp [fallbackCheck, hrl, hpfx]
            rw [hchk] at hok
            simp at hok
            subst hok
            exact ⟨target, hrl, hpfx⟩
          · have hchk : fallbackCheck env name targetRoot fd0 =
                (.error (.escape name), [FbEffect.close fd0]) := by
              simp [fallbackCheck, hrl, hpfx]
            rw [hchk] at hok
            simp at hok
  · intro fd target hph hrl hpfx
    cases hph2 : fallbackOpenPhase env dirfd name flags mode with
    | mk r defs =>
      rw [hph2] at hph
      simp at hph
      subst hph
      have hchk : fallbackCheck env name targetRoot fd =
          (.error (.escape name), [FbEffect.close fd]) := by
        simp [fallbackCheck, hrl, hpfx]
      constructor
      · rw [openFileUnderRootFallback, hroot]
        simp only
        rw [hph2]
        simp only
        rw [hchk]
      · rw [openFileUnderRootFallback, hroot]
        simp only
        rw [hph2]
        simp only
        rw [hchk]
        simp

/-- C1 witness: a concrete environment whose resolution stays inside the
root. -/
theorem openFileUnderRootFallback_containment_witness :
    (∀ fd, (openFileUnderRootFallback fbEnvNoop 3 "x" 0 0).1 = .ok fd →
      ∃ target, fbEnvNoop.readlink (procPathForFd fd) = .ok target ∧
        target.startsWith "/root" = true) ∧
    (∀ fd target, (fallbackOpenPhase fbEnvNoop 3 "x" 0 0).1 = .ok fd →
      fbEnvNoop.readlink (procPathForFd fd) = .ok target →
      target.startsWith "/root" = false →
      (openFileUnderRootFallback fbEnvNoop 3 "x" 0 0).1 = .error (.escape "x") ∧
      FbEffect.close fd ∈ (openFileUnderRootFallback fbEnvNoop 3 "x" 0 0).2) :=
  openFileUnderRootFallback_containment fbEnvNoop 3 "x" 0 0 "/root" rfl

/-! ### Directory ensurer -/

theorem dirExists_iff (fs : DirFs) (p : DirPath) :
    dirExists fs p = true ↔ p = [] ∨ p ∈ fs := by
  simp [dirExists]

theorem dirExists_false (fs : DirFs) (p : DirPath) (h1 : p ≠ []) (h2 : p ∉ fs) :
    dirExists fs p = false := by
  simp [dirExists, h1, h2]

theorem openOrCreateDir_nil (fs : DirFs) (dir : DirPath) :
    openOrCreateDirUnderRoot fs dir [] = .ok (dir, fs) := by
  rw [openOrCreateDirUnderRoot]
  simp [openRawDir]

theorem openOrCreateDir_exists_ok (fs : DirFs) (dir p : DirPath)
    (hex : dirExists fs (dir ++ p) = true) (hpe : p ≠ []) :
    openOrCreateDirUnderRoot fs dir p = .ok (dir ++ p, fs) := by
  rw [openOrCreateDirUnderRoot]
  simp [openRawDir, hpe, hex]

theorem openOrCreateDir_aux (n : Nat) : ∀ (p : DirPath), p.length ≤ n →
    ∀ (fs : DirFs) (dir : DirPath), dirExists fs dir = true →
    ∃ fs2, openOrCreateDirUnderRoot fs dir p = .ok (dir ++ p, fs2) ∧
      dirExists fs2 (dir ++ p) = true ∧
      (∀ q, q ∈ fs2 → q ∈ fs ∨ (dir <+: q ∧ q <+: dir ++ p)) ∧
      (dirExists fs (dir ++ p) = true → fs2 = fs) := by
  induction n with
  | zero =>
    intro p hp fs dir hdir
    have hpe : p = [] := List.length_eq_zero.mp (Nat.le_zero.mp hp)
    subst hpe
    refine ⟨fs, ?_, ?_, fun q hq => Or.inl hq, fun _ => rfl⟩
    · rw [openOrCreateDir_nil]
      simp
    · simpa using hdir
  | succ n ih =>
    intro p hp fs dir hdir
    by_cases hpe : p = []
    · subst hpe
      refine ⟨fs, ?_, ?_, fun q hq => Or.inl hq, fun _ => rfl⟩
      · rw [openOrCreateDir_nil]
        simp
      · simpa using hdir
    · by_cases hex : dirExists fs (dir ++ p) = true
      · exact ⟨fs, openOrCreateDir_exists_ok fs dir p hex hpe, hex,
          fun q hq => Or.inl hq, fun _ => rfl⟩
      · have h0 : 0 < p.length := List.length_pos.mpr hpe
        have hlen : p.dropLast.length ≤ n := by
          simp only [List.length_dropLast]
          omega
        obtain ⟨fs1, h1, hex1, hnew1, _⟩ := ih p.dropLast hlen fs dir hdir
        have hkey : ∀ (h : p ≠ []), (dir ++ p.dropLast) ++ [p.getLast h] = dir ++ p := by
          intro h
          rw [List.append_assoc, List.dropLast_append_getLast h]
        have hnp : dir ++ p ≠ [] := by
          intro hc
          exact hpe (List.append_eq_nil.mp hc).2
        have hnotfs1 : (dir ++ p) ∉ fs1 := by
          intro hc
          rcases hnew1 (dir ++ p) hc with hin | ⟨_, hpre⟩
          · exact absurd ((dirExists_iff fs (dir ++ p)).mpr (Or.inr hin)) hex
          · have hle := hpre.length_le
            simp only [List.length_append, List.length_dropLast] at hle
            omega
        have hnotex1 : dirExists fs1 (dir ++ p) = false :=
          dirExists_false fs1 (dir ++ p) hnp hnotfs1
        have hmk : ∀ (h : p ≠ []), mkdirat fs1 (dir ++ p.dropLast) (p.getLast h) =
            .ok ((dir ++ p) :: fs1) := by
          intro h
          rw [mkdirat]
          rw [hkey h, hnotex1]
          simp
        have hop2 : ∀ (h : p ≠ []),
            openRawDir ((dir ++ p) :: fs1) (dir ++ p.dropLast) [p.getLast h] =
              .ok (dir ++ p) := by
          intro h
          rw [openRawDir]
          have hx : dirExists ((dir ++ p) :: fs1) ((dir ++ p.dropLast) ++ [p.getLast h]) =
              true := by
            rw [hkey h]
            exact (dirExists_iff _ _).mpr (Or.inr (List.mem_cons_self _ _))
          simp only [hx, if_true]
          rw [hkey h]
          simp
        have hopen0 : openRawDir fs dir p = .error .ENOENT := by
          simp [openRawDir, hpe, hex]
        refine ⟨(dir ++ p) :: fs1, ?_, ?_, ?_, ?_⟩
        · rw [openOrCreateDirUnderRoot]
          rw [hopen0]
          simp only [hpe]
          simp [h1, hmk hpe, hop2 hpe]
        · exact (dirExists_iff _ _).mpr (Or.inr (List.mem_cons_self _ _))
        · intro q hq
          rcases List.mem_cons.mp hq with hq | hq
          · subst hq
            exact Or.inr ⟨List.prefix_append dir p, List.prefix_rfl⟩
          · rcases hnew1 q hq with hq2 | ⟨hq2, hq3⟩
            · exact Or.inl hq2
            · refine Or.inr ⟨hq2, hq3.trans ?_⟩
              have hdp := List.dropLast_prefix p
              exact (List.prefix_append_right_inj dir).mpr hdp
        · intro hc
          rw [hc] at hex
          exact absurd rfl hex

/-- C3: `openOrCreateDirUnderRoot` treats an already-existing directory as
success and leaves the tree unchanged; a missing directory is created after
recursively ensuring its parents (every path it adds is an ancestor of the
target under the handle's directory), the result is opened and returned; and
the operation is idempotent — a repeated call succeeds and returns a handle
to the same directory with the tree unchanged. -/
theorem openOrCreateDir_spec (fs : DirFs) (dir p : DirPath)
    (hdir : dirExists fs dir = true) :
    ∃ fs2, openOrCreateDirUnderRoot fs dir p = .ok (dir ++ p, fs2) ∧
      dirExists fs2 (dir ++ p) = true ∧
      (∀ q, q ∈ fs2 → q ∈ fs ∨ (dir <+: q ∧ q <+: dir ++ p)) ∧
      (dirExists fs (dir ++ p) = true → fs2 = fs) ∧
      openOrCreateDirUnderRoot fs2 dir p = .ok (dir ++ p, fs2) := by
  obtain ⟨fs2, h1, h2, h3, h4⟩ :=
    openOrCreateDir_aux p.length p (Nat.le_refl _) fs dir hdir
  refine ⟨fs2, h1, h2, h3, h4, ?_⟩
  by_cases hpe : p = []
  · subst hpe
    rw [openOrCreateDir_nil]
    simp
  · exact openOrCreateDir_exists_ok fs2 dir p h2 hpe

/-- C3 witness: creating `a/b` under an empty tree from the root handle. -/
theorem openOrCreateDir_spec_witness :
    ∃ fs2, openOrCreateDirUnderRoot [] [] ["a", "b"] = .ok ([] ++ ["a", "b"], fs2) ∧
      dirExists fs2 ([] ++ ["a", "b"]) = true ∧
      (∀ q, q ∈ fs2 → q ∈ ([] : DirFs) ∨ (([] : DirPath) <+: q ∧ q <+: [] ++ ["a", "b"])) ∧
      (dirExists [] ([] ++ ["a", "b"]) = true → fs2 = []) ∧
      openOrCreateDirUnderRoot fs2 [] ["a", "b"] = .ok ([] ++ ["a", "b"], fs2) :=
  openOrCreateDir_spec [] [] ["a", "b"] rfl

end Chunked
